import Mathlib

/-!
# Verification of the `slot-arena` crate

Shallow embedding of `src/lib.rs` (`SlotArena<T>`) and of the handle type
`Ref<T>`.  The handle module (`mod r#ref;` in `lib.rs`, file `src/ref.rs`)
is not present in the sources, so `Ref` is modelled from the spec (§4.1).

Machine integers: a Rust `u32` is modelled as a `Nat` together with an
explicit `% 2^32` at every place the Rust code performs an `as u32` cast.
Rust `Vec<T>` is modelled as `List T`; `Vec::push`/`Vec::pop` act on the
*end* of a Rust vector, so the free-list stack is represented with its top
at the *head* of the Lean list (`push` = `cons`, `pop` = take the head).
This mirrors the LIFO discipline exactly; no observable operation depends
on the storage direction of the free list (`contains` is order-blind).

A Rust panic (out-of-bounds index assignment, out-of-bounds `Index`) is
modelled by returning `none`: a fallible operation has an `Option` result
whose `none` means "the process aborts here".
-/

namespace SlotArenaSpec

/-- Modelled from the spec: the file `src/ref.rs` (module `r#ref`, the
`Ref<T>` handle type) is missing from the sources.  Per §4.1 a handle is a
32-bit unsigned index with unchecked `from_raw`/`to_raw` conversions;
equality, ordering and hashing are defined purely on the raw index.  The
phantom element-type tag exists only in Rust's static type system and has
no runtime content, so it is omitted here. -/
structure Ref where
  raw : Nat
deriving DecidableEq, Repr

/-- Constant `2^32`, the number of values of `u32`; `as u32` is reduction mod this. -/
def U32_MOD : Nat := 2 ^ 32

/-- Constant `u32::MAX = 2^32 - 1`. -/
def U32_MAX : Nat := 2 ^ 32 - 1

/-- Rust `Ref::from_raw`: unchecked construction from a `u32` value.  The
argument is the mathematical value of the `u32` handed to it; call sites
that cast with `as u32` in the Rust code are modelled by the `% 2^32`. -/
def Ref.fromRaw (n : Nat) : Ref := ⟨n % U32_MOD⟩

/-- Rust `Ref::to_raw`: extract the raw index. -/
def Ref.toRaw (r : Ref) : Nat := r.raw

/-- Rust `SlotArena<T>` (src/lib.rs lines 10-14): dense storage `raw : Vec<T>`
plus the free list `free : Vec<Ref<T>>`.  The free-list stack top is at
the head of the list (see the header comment). -/
structure SlotArena (T : Type) where
  raw : List T
  free : List Ref
deriving DecidableEq, Repr

variable {T : Type}

/-- Rust `SlotArena::new` (lines 19-24): empty storage, empty free list. -/
def SlotArena.new : SlotArena T := ⟨[], []⟩

/-- Rust `SlotArena::with_capacity` (lines 28-33): `Vec::with_capacity` only
pre-reserves memory; the capacity is not part of a `Vec`'s value (it is
unobservable by `==`, iteration, length, …), so the resulting value is the
empty arena. -/
def SlotArena.withCapacity (_capacity : Nat) : SlotArena T := ⟨[], []⟩

/-- Rust `SlotArena::free` (lines 38-40): pushes the handle onto the free list,
with no validation whatsoever.  (The Rust method is called `free`; in Lean
that name is taken by the structure field, hence `freeRef`.) -/
def SlotArena.freeRef (a : SlotArena T) (value : Ref) : SlotArena T :=
  { a with free := value :: a.free }

/-- Rust `SlotArena::insert` (lines 46-58).  Pops the free-list top if there is
one and overwrites that slot (`self.raw[idx.to_raw() as usize] = value`,
which panics — here `none` — when the index is out of bounds); otherwise
appends, returning `Ref::from_raw(self.raw.len() as u32)`.  Note the code
has no explicit capacity check: at `raw.len() = u32::MAX` it appends and
the `as u32` cast of later lengths silently wraps. -/
def SlotArena.insert (a : SlotArena T) (value : T) : Option (Ref × SlotArena T) :=
  match a.free with
  | idx :: rest =>
    if _h : idx.toRaw < a.raw.length then
      some (idx, { a with raw := a.raw.set idx.toRaw value, free := rest })
    else
      none
  | [] =>
    some (Ref.fromRaw a.raw.length, { a with raw := a.raw ++ [value] })

/-- Rust `SlotArena::try_insert` (lines 61-77).  Same as `insert` except that
when the free list is empty and `raw.len() == u32::MAX` it returns `None`
(modelled as `some (none, a)`: the process does not abort, the call
returns the absent result and leaves the arena unchanged). -/
def SlotArena.tryInsert (a : SlotArena T) (value : T) :
    Option (Option Ref × SlotArena T) :=
  match a.free with
  | idx :: rest =>
    if _h : idx.toRaw < a.raw.length then
      some (some idx, { a with raw := a.raw.set idx.toRaw value, free := rest })
    else
      none
  | [] =>
    if a.raw.length = U32_MAX then
      some (none, a)
    else
      some (some (Ref.fromRaw a.raw.length), { a with raw := a.raw ++ [value] })

/-- Rust `SlotArena::is_valid` (lines 82-84):
`!self.free.contains(&value) && (value.to_raw() as usize) < self.raw.len()`.
`Vec::contains` is list membership. -/
def SlotArena.isValid (a : SlotArena T) (value : Ref) : Bool :=
  !(decide (value ∈ a.free)) && decide (value.toRaw < a.raw.length)

/-- Rust `SlotArena::get` (lines 91-94) as run in a release build: the
`debug_assert!` is compiled out, and `&self.raw[idx]` panics (`none`) only
when the index is out of bounds. -/
def SlotArena.getRes (a : SlotArena T) (value : Ref) : Option T :=
  a.raw[value.toRaw]?

/-- Rust `SlotArena::try_get` (lines 98-104). -/
def SlotArena.tryGet (a : SlotArena T) (value : Ref) : Option T :=
  if a.isValid value then a.raw[value.toRaw]? else none

/-- Rust `SlotArena::iter` (lines 127-133): enumerate the raw storage, pair
each element with `Ref::from_raw(idx as u32)`, and keep the pairs whose
handle is not in the free list. -/
def SlotArena.iterPairs (a : SlotArena T) : List (Ref × T) :=
  (a.raw.enum.map (fun p => (Ref.fromRaw p.1, p.2))).filter
    (fun p => !(decide (p.1 ∈ a.free)))

/-- Structural equality of arenas as produced by `#[derive(PartialEq)]`
(line 10): field-wise comparison of the two vectors. -/
def SlotArena.beq [DecidableEq T] (a b : SlotArena T) : Bool :=
  decide (a.raw = b.raw) && decide (a.free = b.free)

/-- The spec's data-model invariant (§3): every free-list entry's index is
below the storage length. -/
def FreeBounded (a : SlotArena T) : Prop :=
  ∀ r ∈ a.free, r.raw < a.raw.length

instance (a : SlotArena T) : Decidable (FreeBounded a) := by
  unfold FreeBounded; infer_instance

/-! ## The public operations as a transition system

One step per public method (§4.2).  `step` returns `none` when the call
panics in Rust; the read-only operations do not change the state. -/

/-- One public API call together with its arguments. -/
inductive Op (T : Type) where
  | insert (v : T)
  | tryInsert (v : T)
  | free (r : Ref)
  | isValid (r : Ref)
  | get (r : Ref)
  | tryGet (r : Ref)
  | iter
deriving DecidableEq, Repr

/-- Effect of one public call on the arena state (`none` = panic). -/
def step (a : SlotArena T) : Op T → Option (SlotArena T)
  | .insert v => (a.insert v).map Prod.snd
  | .tryInsert v => (a.tryInsert v).map Prod.snd
  | .free r => some (a.freeRef r)
  | .isValid _ => some a
  | .get r => if r.toRaw < a.raw.length then some a else none
  | .tryGet _ => some a
  | .iter => some a

/-- Run a sequence of public calls; `none` as soon as one panics. -/
def run (a : SlotArena T) : List (Op T) → Option (SlotArena T)
  | [] => some a
  | op :: ops =>
    match step a op with
    | some a' => run a' ops
    | none => none

/-- A state is reachable when some sequence of public calls (with
arbitrary arguments — `Ref::from_raw` is public and unchecked) produces it
from `SlotArena::new`. -/
def Reachable (a : SlotArena T) : Prop :=
  ∃ ops : List (Op T), run SlotArena.new ops = some a

/-- Reachability when every `free` is only applied to an in-bounds handle.
The read-only calls and a full `try_insert` do not change the state, so
they need no constructor of their own. -/
inductive BReach : SlotArena T → Prop where
  | new : BReach SlotArena.new
  | insert {a : SlotArena T} {v : T} {r : Ref} {a' : SlotArena T} :
      BReach a → a.insert v = some (r, a') → BReach a'
  | tryInsert {a : SlotArena T} {v : T} {x : Option Ref} {a' : SlotArena T} :
      BReach a → a.tryInsert v = some (x, a') → BReach a'
  | free {a : SlotArena T} {r : Ref} :
      BReach a → r.raw < a.raw.length → BReach (a.freeRef r)

/-- Reachability when `free` is never applied to a handle that is already
in the free list (no double frees). -/
inductive NReach : SlotArena T → Prop where
  | new : NReach SlotArena.new
  | insert {a : SlotArena T} {v : T} {r : Ref} {a' : SlotArena T} :
      NReach a → a.insert v = some (r, a') → NReach a'
  | tryInsert {a : SlotArena T} {v : T} {x : Option Ref} {a' : SlotArena T} :
      NReach a → a.tryInsert v = some (x, a') → NReach a'
  | free {a : SlotArena T} {r : Ref} :
      NReach a → r ∉ a.free → NReach (a.freeRef r)

end SlotArenaSpec

namespace SlotArenaSpec

variable {T : Type}

/-- The handle an operation hands back to the caller, when it is an
insertion (`insert` returns the popped or fresh handle, `try_insert` the
same wrapped in `Some`); the other operations return no handle that
removes anything from the free list. -/
def stepReturns (a : SlotArena T) : Op T → Option Ref
  | .insert v => (a.insert v).map Prod.fst
  | .tryInsert v => (a.tryInsert v).bind Prod.fst
  | _ => none

/-- C10: `with_capacity(n)` equals `new()` as a value — both have empty
storage and empty free list — so the capacity argument is unobservable
through every subsequent operation. -/
theorem withCapacity_eq_new :
    ∀ n : Nat,
      (SlotArena.withCapacity n : SlotArena T) = SlotArena.new ∧
      (SlotArena.new : SlotArena T).raw = [] ∧
      (SlotArena.new : SlotArena T).free = [] ∧
      (∀ v : T, (SlotArena.withCapacity n).insert v = (SlotArena.new : SlotArena T).insert v) ∧
      (∀ r : Ref, (SlotArena.withCapacity n : SlotArena T).isValid r =
        (SlotArena.new : SlotArena T).isValid r) ∧
      (∀ r : Ref, (SlotArena.withCapacity n : SlotArena T).getRes r =
        (SlotArena.new : SlotArena T).getRes r) ∧
      (SlotArena.withCapacity n : SlotArena T).iterPairs =
        (SlotArena.new : SlotArena T).iterPairs := by
  intro n
  refine ⟨rfl, rfl, rfl, fun v => rfl, fun r => rfl, fun r => rfl, rfl⟩

/-- Closed instance of `withCapacity_eq_new`. -/
theorem withCapacity_eq_new_w :
    (SlotArena.withCapacity 7 : SlotArena Nat) = SlotArena.new :=
  (withCapacity_eq_new 7).1

/-- C3 counterexample: in the arena `[10, 20]` with handles `h1 = 0` and
`h2 = 1` both valid and distinct, freeing `h1` then `h2` and inserting
once pops `h2` (the most recently freed handle), not `h1` as the claim
states. -/
theorem free_free_insert_pops_second_not_first :
    (((⟨[10, 20], []⟩ : SlotArena Nat).freeRef ⟨0⟩).freeRef ⟨1⟩).insert 30 =
        some (⟨1⟩, ⟨[10, 30], [⟨0⟩]⟩) ∧
      (⟨1⟩ : Ref) ≠ (⟨0⟩ : Ref) := by
  constructor
  · rfl
  · decide

/-- C3 amended: free-list reuse is last-in-first-out — after freeing `h1`
then `h2` (both valid, distinct), the FIRST insert returns `h2` and the
SECOND insert returns `h1`. -/
theorem free_free_insert_insert_lifo (a : SlotArena T) (h1 h2 : Ref)
    (v1 v2 : T) (_hne : h1 ≠ h2)
    (hv1 : a.isValid h1 = true) (hv2 : a.isValid h2 = true) :
    ∃ s1, ((a.freeRef h1).freeRef h2).insert v1 = some (h2, s1) ∧
      ∃ s2, s1.insert v2 = some (h1, s2) := by
  have hb1 : h1.toRaw < a.raw.length := by
    have := hv1; simp [SlotArena.isValid, Ref.toRaw] at this; exact this.2
  have hb2 : h2.toRaw < a.raw.length := by
    have := hv2; simp [SlotArena.isValid, Ref.toRaw] at this; exact this.2
  refine ⟨⟨a.raw.set h2.toRaw v1, h1 :: a.free⟩, ?_, ?_⟩
  · simp [SlotArena.freeRef, SlotArena.insert, hb2]
  · have hb1' : h1.toRaw < (a.raw.set h2.toRaw v1).length := by
      simpa using hb1
    exact ⟨⟨(a.raw.set h2.toRaw v1).set h1.toRaw v2, a.free⟩, by
      simp [SlotArena.insert, hb1', hb1]⟩

/-- Closed instance of `free_free_insert_insert_lifo` on the arena
`[10, 20]` with `h1 = 0`, `h2 = 1`. -/
theorem free_free_insert_insert_lifo_w :
    ∃ s1,
      (((⟨[10, 20], []⟩ : SlotArena Nat).freeRef ⟨0⟩).freeRef ⟨1⟩).insert 30 =
          some (⟨1⟩, s1) ∧
        ∃ s2, s1.insert 40 = some (⟨0⟩, s2) :=
  free_free_insert_insert_lifo ⟨[10, 20], []⟩ ⟨0⟩ ⟨1⟩ 30 40
    (by decide) (by decide) (by decide)

/-- C6: when the free list is empty and the storage already holds
`u32::MAX` elements, `insert` does NOT panic: it appends the value and
returns the handle `u32::MAX` (the `self.raw.len() as u32` cast of
`u32::MAX` is exact), so the storage grows to `2^32` elements in
contradiction with the method's own `# Panics` documentation. -/
theorem insert_at_capacity_returns_handle (a : SlotArena T) (v : T)
    (hf : a.free = []) (hl : a.raw.length = U32_MAX) :
    a.insert v = some (⟨U32_MAX⟩, { a with raw := a.raw ++ [v] }) := by
  have hmod : U32_MAX % U32_MOD = U32_MAX :=
    Nat.mod_eq_of_lt (by norm_num [U32_MAX, U32_MOD])
  simp [SlotArena.insert, hf, Ref.fromRaw, hl, hmod]

/-- Closed instance of `insert_at_capacity_returns_handle` on a storage of
exactly `u32::MAX` zeros. -/
theorem insert_at_capacity_returns_handle_w :
    (⟨List.replicate U32_MAX (0 : Nat), []⟩ : SlotArena Nat).insert 7 =
      some (⟨U32_MAX⟩, ⟨List.replicate U32_MAX (0 : Nat) ++ [7], []⟩) :=
  insert_at_capacity_returns_handle _ 7 rfl (by simp)

/-- C7: `free(h)` only pushes `h` onto the free list — the storage is
untouched in length and contents — `is_valid(h)` is false immediately
afterwards, and a handle sitting in the free list stays invalid after any
public call except an insertion that pops (returns) that very handle. -/
theorem free_frame_and_invalidates (a : SlotArena T) (r : Ref) :
    (a.freeRef r).raw = a.raw ∧
      (a.freeRef r).free = r :: a.free ∧
      (a.freeRef r).isValid r = false ∧
      (∀ b : SlotArena T, r ∈ b.free → b.isValid r = false) ∧
      (∀ (b b' : SlotArena T) (op : Op T), r ∈ b.free → step b op = some b' →
        r ∈ b'.free ∨ stepReturns b op = some r) := by
  refine ⟨rfl, rfl, ?_, ?_, ?_⟩
  · simp [SlotArena.freeRef, SlotArena.isValid]
  · intro b hmem
    simp [SlotArena.isValid, hmem]
  · intro b b' op hmem hstep
    cases op with
    | insert v =>
      cases hf : b.free with
      | nil => rw [hf] at hmem; cases hmem
      | cons idx rest =>
        by_cases hb : idx.toRaw < b.raw.length
        · have hins : b.insert v =
              some (idx, { b with raw := b.raw.set idx.toRaw v, free := rest }) := by
            simp [SlotArena.insert, hf, hb]
          rw [hf] at hmem
          rcases List.mem_cons.mp hmem with hr | hr
          · right
            simp [stepReturns, hins, hr]
          · left
            have hb' : b' = { b with raw := b.raw.set idx.toRaw v, free := rest } := by
              simp [step, hins] at hstep
              exact hstep.symm
            rw [hb']
            exact hr
        · exfalso
          have : b.insert v = none := by simp [SlotArena.insert, hf, hb]
          simp [step, this] at hstep
    | tryInsert v =>
      cases hf : b.free with
      | nil => rw [hf] at hmem; cases hmem
      | cons idx rest =>
        by_cases hb : idx.toRaw < b.raw.length
        · have hins : b.tryInsert v =
              some (some idx, { b with raw := b.raw.set idx.toRaw v, free := rest }) := by
            simp [SlotArena.tryInsert, hf, hb]
          rw [hf] at hmem
          rcases List.mem_cons.mp hmem with hr | hr
          · right
            simp [stepReturns, hins, hr]
          · left
            have hb' : b' = { b with raw := b.raw.set idx.toRaw v, free := rest } := by
              simp [step, hins] at hstep
              exact hstep.symm
            rw [hb']
            exact hr
        · exfalso
          have : b.tryInsert v = none := by simp [SlotArena.tryInsert, hf, hb]
          simp [step, this] at hstep
    | free r' =>
      left
      have hb' : b' = b.freeRef r' := by
        simp [step] at hstep
        exact hstep.symm
      rw [hb']
      exact List.mem_cons_of_mem _ hmem
    | isValid r' =>
      left
      simp [step] at hstep
      rw [← hstep]
      exact hmem
    | get r' =>
      left
      simp [step] at hstep
      rw [← hstep.2]
      exact hmem
    | tryGet r' =>
      left
      simp [step] at hstep
      rw [← hstep]
      exact hmem
    | iter =>
      left
      simp [step] at hstep
      rw [← hstep]
      exact hmem

/-- Closed instance of `free_frame_and_invalidates` on the arena `[5]`. -/
theorem free_frame_and_invalidates_w :
    ((⟨[5], []⟩ : SlotArena Nat).freeRef ⟨0⟩).raw = [5] ∧
      ((⟨[5], []⟩ : SlotArena Nat).freeRef ⟨0⟩).isValid ⟨0⟩ = false :=
  ⟨(free_frame_and_invalidates ⟨[5], []⟩ ⟨0⟩).1,
    (free_frame_and_invalidates ⟨[5], []⟩ ⟨0⟩).2.2.1⟩

end SlotArenaSpec

namespace SlotArenaSpec

variable {T : Type}

/-- Case analysis of a successful `insert`: either the free list was empty
and the value was appended, or the free-list top was popped (in bounds)
and its slot overwritten. -/
theorem insert_cases {a : SlotArena T} {v : T} {r : Ref} {a' : SlotArena T}
    (h : a.insert v = some (r, a')) :
    (a.free = [] ∧ r = Ref.fromRaw a.raw.length ∧
      a'.raw = a.raw ++ [v] ∧ a'.free = []) ∨
    (∃ rest, a.free = r :: rest ∧ r.toRaw < a.raw.length ∧
      a'.raw = a.raw.set r.toRaw v ∧ a'.free = rest) := by
  cases hf : a.free with
  | nil =>
    simp [SlotArena.insert, hf] at h
    obtain ⟨h1, h2⟩ := h
    exact Or.inl ⟨rfl, h1.symm, by rw [← h2], by rw [← h2]⟩
  | cons idx rest =>
    by_cases hb : idx.toRaw < a.raw.length
    · simp [SlotArena.insert, hf, hb] at h
      obtain ⟨h1, h2⟩ := h
      subst h1
      exact Or.inr ⟨rest, rfl, hb, by rw [← h2], by rw [← h2]⟩
    · simp [SlotArena.insert, hf, hb] at h

/-- Case analysis of a successful `try_insert`. -/
theorem tryInsert_cases {a : SlotArena T} {v : T} {x : Option Ref}
    {a' : SlotArena T} (h : a.tryInsert v = some (x, a')) :
    (a.free = [] ∧ a.raw.length = U32_MAX ∧ x = none ∧ a' = a) ∨
    (a.free = [] ∧ a.raw.length ≠ U32_MAX ∧ x = some (Ref.fromRaw a.raw.length) ∧
      a'.raw = a.raw ++ [v] ∧ a'.free = []) ∨
    (∃ r rest, a.free = r :: rest ∧ r.toRaw < a.raw.length ∧ x = some r ∧
      a'.raw = a.raw.set r.toRaw v ∧ a'.free = rest) := by
  cases hf : a.free with
  | nil =>
    by_cases hl : a.raw.length = U32_MAX
    · simp [SlotArena.tryInsert, hf, hl] at h
      exact Or.inl ⟨rfl, hl, h.1.symm, h.2.symm⟩
    · simp [SlotArena.tryInsert, hf, hl] at h
      obtain ⟨h1, h2⟩ := h
      exact Or.inr (Or.inl ⟨rfl, hl, h1.symm, by rw [← h2], by rw [← h2]⟩)
  | cons idx rest =>
    by_cases hb : idx.toRaw < a.raw.length
    · simp [SlotArena.tryInsert, hf, hb] at h
      obtain ⟨h1, h2⟩ := h
      exact Or.inr (Or.inr ⟨idx, rest, rfl, hb, h1.symm, by rw [← h2], by rw [← h2]⟩)
    · simp [SlotArena.tryInsert, hf, hb] at h

/-- C8 counterexample: the claim quantifies over ALL sequences of the
public operations, and `free` performs no validation, so the single
public call `free(Ref::from_raw(0))` on a fresh arena already produces a
reachable state whose free-list entry `0` is not below the storage length
`0`. -/
theorem unrestricted_free_breaks_free_bounds :
    ¬ (∀ a : SlotArena Nat, Reachable a → FreeBounded a) := by
  intro h
  have hr : Reachable (⟨[], [⟨0⟩]⟩ : SlotArena Nat) := ⟨[Op.free ⟨0⟩], rfl⟩
  have hb := h _ hr ⟨0⟩ (by simp)
  simp at hb

/-- C8 amended: in every state reachable from a new arena by public
operations in which `free` is only applied to in-bounds handles, every
free-list entry's index is strictly below the storage length. -/
theorem breach_free_bounded :
    ∀ a : SlotArena T, BReach a → FreeBounded a := by
  intro a h
  induction h with
  | new => intro s hs; cases hs
  | @insert a v r a' _ hins ih =>
    intro s hs
    rcases insert_cases hins with ⟨_, _, _, hfr⟩ | ⟨rest, hf, _, hraw, hfr⟩
    · rw [hfr] at hs; cases hs
    · rw [hfr] at hs
      have : s ∈ a.free := by rw [hf]; exact List.mem_cons_of_mem _ hs
      have := ih s this
      rw [hraw]
      simpa using this
  | @tryInsert a v x a' _ hins ih =>
    intro s hs
    rcases tryInsert_cases hins with ⟨_, _, _, ha⟩ | ⟨_, _, _, _, hfr⟩ |
      ⟨r, rest, hf, _, _, hraw, hfr⟩
    · subst ha; exact ih s hs
    · rw [hfr] at hs; cases hs
    · rw [hfr] at hs
      have : s ∈ a.free := by rw [hf]; exact List.mem_cons_of_mem _ hs
      have := ih s this
      rw [hraw]
      simpa using this
  | @free a r _ hlt ih =>
    intro s hs
    rcases List.mem_cons.mp hs with h1 | h1
    · subst h1; exact hlt
    · exact ih s h1

/-- Closed instance of `breach_free_bounded`: the state reached by
`insert 5` then `free` of the returned handle. -/
theorem breach_free_bounded_w :
    FreeBounded (⟨[5], [⟨0⟩]⟩ : SlotArena Nat) :=
  breach_free_bounded _
    (@BReach.free Nat ⟨[5], []⟩ ⟨0⟩
      (@BReach.insert Nat SlotArena.new 5 ⟨0⟩ ⟨[5], []⟩ BReach.new (by decide))
      (by decide))

/-- C4 counterexample: the claim allows repeated frees of the same handle;
after `insert 10` (handle `0`), `free 0`, `free 0`, the next `insert 20`
returns handle `0`, yet `is_valid(0)` is FALSE immediately after that
insert because a copy of `0` is still on the free list. -/
theorem double_free_insert_handle_invalid :
    run (SlotArena.new : SlotArena Nat)
        [Op.insert 10, Op.free ⟨0⟩, Op.free ⟨0⟩] =
      some ⟨[10], [⟨0⟩, ⟨0⟩]⟩ ∧
    (⟨[10], [⟨0⟩, ⟨0⟩]⟩ : SlotArena Nat).insert 20 =
      some (⟨0⟩, ⟨[20], [⟨0⟩]⟩) ∧
    (⟨[20], [⟨0⟩]⟩ : SlotArena Nat).isValid ⟨0⟩ = false := by
  refine ⟨by decide, by decide, by decide⟩

/-- Free lists stay duplicate-free along `NReach` executions. -/
theorem nreach_nodup : ∀ a : SlotArena T, NReach a → a.free.Nodup := by
  intro a h
  induction h with
  | new => exact List.nodup_nil
  | @insert a v r a' _ hins ih =>
    rcases insert_cases hins with ⟨_, _, _, hfr⟩ | ⟨rest, hf, _, _, hfr⟩
    · rw [hfr]; exact List.nodup_nil
    · rw [hfr]
      rw [hf] at ih
      exact ih.of_cons
  | @tryInsert a v x a' _ hins ih =>
    rcases tryInsert_cases hins with ⟨_, _, _, ha⟩ | ⟨_, _, _, _, hfr⟩ |
      ⟨r, rest, hf, _, _, _, hfr⟩
    · rw [ha]; exact ih
    · rw [hfr]; exact List.nodup_nil
    · rw [hfr]
      rw [hf] at ih
      exact ih.of_cons
  | @free a r _ hnm ih =>
    exact List.nodup_cons.mpr ⟨hnm, ih⟩

/-- C4 amended: along executions in which `free` is never applied to a
handle already on the free list (in particular, no double frees), every
handle returned by `insert` is valid immediately after that insert; and a
valid handle stays valid across any public call other than a `free` of
that very handle. -/
theorem insert_handle_valid_until_freed :
    (∀ (a : SlotArena T) (v : T) (r : Ref) (a' : SlotArena T),
      NReach a → a.insert v = some (r, a') → a'.isValid r = true) ∧
    (∀ (b b' : SlotArena T) (op : Op T) (r : Ref),
      b.isValid r = true → step b op = some b' → op ≠ Op.free r →
      b'.isValid r = true) := by
  constructor
  · intro a v r a' hre hins
    rcases insert_cases hins with ⟨hf, hr, hraw, hfr⟩ | ⟨rest, hf, hlt, hraw, hfr⟩
    · have hrr : r.raw = a.raw.length % U32_MOD := by rw [hr]; rfl
      simp [SlotArena.isValid, Ref.toRaw, hraw, hfr, hrr]
      calc a.raw.length % U32_MOD ≤ a.raw.length := Nat.mod_le _ _
        _ < a.raw.length + 1 := Nat.lt_succ_self _
    · have hnd := nreach_nodup a hre
      rw [hf] at hnd
      have hnm : r ∉ rest := (List.nodup_cons.mp hnd).1
      have hlt2 : r.raw < a.raw.length := hlt
      simp [SlotArena.isValid, Ref.toRaw, hraw, hfr, hnm, hlt2]
  · intro b b' op r hv hstep hne
    have hv' := hv
    simp [SlotArena.isValid, Ref.toRaw] at hv'
    obtain ⟨hnm, hlt⟩ := hv'
    cases op with
    | insert v =>
      simp only [step, Option.map_eq_some'] at hstep
      obtain ⟨⟨r0, a''⟩, hins, rfl⟩ := hstep
      rcases insert_cases hins with ⟨hf, _, hraw, hfr⟩ | ⟨rest, hf, _, hraw, hfr⟩
      · simp [SlotArena.isValid, Ref.toRaw, hraw, hfr]
        exact Nat.lt_succ_of_lt hlt
      · have hrm : r ∉ rest := fun hm => hnm (by rw [hf]; exact List.mem_cons_of_mem _ hm)
        simp [SlotArena.isValid, Ref.toRaw, hraw, hfr, hrm]
        exact hlt
    | tryInsert v =>
      simp only [step, Option.map_eq_some'] at hstep
      obtain ⟨⟨x, a''⟩, hins, rfl⟩ := hstep
      rcases tryInsert_cases hins with ⟨_, _, _, ha⟩ | ⟨_, _, _, hraw, hfr⟩ |
        ⟨r0, rest, hf, _, _, hraw, hfr⟩
      · rw [ha]; exact hv
      · simp [SlotArena.isValid, Ref.toRaw, hraw, hfr]
        exact Nat.lt_succ_of_lt hlt
      · have hrm : r ∉ rest := fun hm => hnm (by rw [hf]; exact List.mem_cons_of_mem _ hm)
        simp [SlotArena.isValid, Ref.toRaw, hraw, hfr, hrm]
        exact hlt
    | free r' =>
      have hne' : r' ≠ r := fun h => hne (by rw [h])
      have hrr : r ≠ r' := Ne.symm hne'
      simp [step] at hstep
      subst hstep
      simp [SlotArena.isValid, SlotArena.freeRef, Ref.toRaw, hnm, hlt, hrr]
    | isValid r' =>
      simp [step] at hstep; rw [← hstep]; exact hv
    | get r' =>
      simp [step] at hstep; rw [← hstep.2]; exact hv
    | tryGet r' =>
      simp [step] at hstep; rw [← hstep]; exact hv
    | iter =>
      simp [step] at hstep; rw [← hstep]; exact hv

/-- Closed instance of `insert_handle_valid_until_freed`: the handle of
`insert 5` into a fresh arena is valid right away, and stays valid across
a `free` of a different handle. -/
theorem insert_handle_valid_until_freed_w :
    (⟨[5], []⟩ : SlotArena Nat).isValid ⟨0⟩ = true ∧
    (⟨[5, 6], [⟨1⟩]⟩ : SlotArena Nat).isValid ⟨0⟩ = true :=
  ⟨insert_handle_valid_until_freed.1 SlotArena.new 5 ⟨0⟩ ⟨[5], []⟩
      NReach.new (by decide),
    insert_handle_valid_until_freed.2 ⟨[5, 6], []⟩ ⟨[5, 6], [⟨1⟩]⟩
      (Op.free ⟨1⟩) ⟨0⟩ (by decide) (by decide) (by decide)⟩

end SlotArenaSpec

namespace SlotArenaSpec

variable {T : Type}

/-- C1: on an arena whose state respects the data-model invariants (§3:
free-list entries in bounds, at most `u32::MAX` slots), `insert(v)` pops
the most recently freed handle when the free list is non-empty, overwrites
exactly that slot with `v`, returns the handle unchanged and keeps the
storage length; with an empty free list it appends `v` and returns the
handle whose raw index is the old storage length. -/
theorem insert_free_list_behavior (a : SlotArena T) (v : T)
    (hb : FreeBounded a) (hcap : a.raw.length ≤ U32_MAX) :
    (a.free = [] →
      a.insert v = some (⟨a.raw.length⟩, { a with raw := a.raw ++ [v] })) ∧
    (∀ h t, a.free = h :: t →
      a.insert v = some (h, ⟨a.raw.set h.toRaw v, t⟩) ∧
      (a.raw.set h.toRaw v).length = a.raw.length) := by
  constructor
  · intro hf
    have hmod : a.raw.length % U32_MOD = a.raw.length := by
      refine Nat.mod_eq_of_lt ?_
      calc a.raw.length ≤ U32_MAX := hcap
        _ < U32_MOD := by norm_num [U32_MAX, U32_MOD]
    simp [SlotArena.insert, hf, Ref.fromRaw, hmod]
  · intro h t hf
    have hlt : h.toRaw < a.raw.length := hb h (by rw [hf]; exact List.mem_cons_self h t)
    constructor
    · simp [SlotArena.insert, hf, hlt]
    · simp

/-- Closed instance of `insert_free_list_behavior`: reuse of freed slot 1
in the arena `[1, 2]`, and the append case on the result. -/
theorem insert_free_list_behavior_w :
    (⟨[1, 2], [⟨1⟩]⟩ : SlotArena Nat).insert 9 = some (⟨1⟩, ⟨[1, 9], []⟩) ∧
    (([1, 2] : List Nat).set 1 9).length = 2 :=
  (insert_free_list_behavior ⟨[1, 2], [⟨1⟩]⟩ 9 (by decide) (by decide)).2
    ⟨1⟩ [] rfl

/-- C5: on an arena whose state respects the free-list bounds invariant
(§3), `try_insert` never panics, returns the absent result exactly when
the free list is empty and the storage holds `u32::MAX` elements (leaving
the arena untouched), and otherwise returns `Some` handle with exactly the
effect of `insert`. -/
theorem tryInsert_total_and_agrees (a : SlotArena T) (v : T)
    (hb : FreeBounded a) :
    (a.tryInsert v).isSome = true ∧
    (a.tryInsert v = some (none, a) ↔ a.free = [] ∧ a.raw.length = U32_MAX) ∧
    (∀ (r : Ref) (a' : SlotArena T),
      a.tryInsert v = some (some r, a') → a.insert v = some (r, a')) := by
  refine ⟨?_, ⟨?_, ?_⟩, ?_⟩
  · cases hf : a.free with
    | nil =>
      by_cases hl : a.raw.length = U32_MAX <;>
        simp [SlotArena.tryInsert, hf, hl]
    | cons idx rest =>
      have hlt : idx.toRaw < a.raw.length :=
        hb idx (by rw [hf]; exact List.mem_cons_self idx rest)
      simp [SlotArena.tryInsert, hf, hlt]
  · intro h
    rcases tryInsert_cases h with ⟨hf, hl, _, _⟩ | ⟨_, _, hx, _, _⟩ |
      ⟨r, rest, _, _, hx, _, _⟩
    · exact ⟨hf, hl⟩
    · cases hx
    · cases hx
  · rintro ⟨hf, hl⟩
    simp [SlotArena.tryInsert, hf, hl]
  · intro r a' h
    rcases tryInsert_cases h with ⟨_, _, hx, _⟩ | ⟨hf, hl, hx, hraw, hfr⟩ |
      ⟨r0, rest, hf, hlt, hx, hraw, hfr⟩
    · cases hx
    · have hr : r = Ref.fromRaw a.raw.length := Option.some.inj hx
      subst hr
      have : a' = { a with raw := a.raw ++ [v] } := by
        cases a'
        simp only [SlotArena.mk.injEq]
        exact ⟨hraw, hfr.trans hf.symm⟩
      rw [this]
      simp [SlotArena.insert, hf]
    · have hr : r = r0 := Option.some.inj hx
      subst hr
      have : a' = { a with raw := a.raw.set r.toRaw v, free := rest } := by
        cases a'
        simp only [SlotArena.mk.injEq]
        exact ⟨hraw, hfr⟩
      rw [this]
      simp [SlotArena.insert, hf, hlt]

/-- Closed instance of `tryInsert_total_and_agrees` on the arena `[4]`
with freed slot 0. -/
theorem tryInsert_total_and_agrees_w :
    ((⟨[4], [⟨0⟩]⟩ : SlotArena Nat).tryInsert 8).isSome = true ∧
    (⟨[4], [⟨0⟩]⟩ : SlotArena Nat).insert 8 = some (⟨0⟩, ⟨[8], []⟩) :=
  ⟨(tryInsert_total_and_agrees ⟨[4], [⟨0⟩]⟩ 8 (by decide)).1,
    (tryInsert_total_and_agrees ⟨[4], [⟨0⟩]⟩ 8 (by decide)).2.2 ⟨0⟩ ⟨[8], []⟩
      (by decide)⟩

end SlotArenaSpec

namespace SlotArenaSpec

variable {T : Type}

/-- C2: on an arena with at most `u32::MAX` slots, `iter()` yields exactly
the pairs `(h, v)` such that `is_valid(h)` holds, where `v` is the value
currently stored in slot `h` (the value most recently written there by
`insert`, since `free` never touches the storage), and the handles appear
in strictly ascending raw-index order; freed slots are skipped. -/
theorem iter_exactly_valid_ascending (a : SlotArena T)
    (hcap : a.raw.length ≤ U32_MAX) :
    (∀ (r : Ref) (v : T), (r, v) ∈ a.iterPairs ↔
      (a.isValid r = true ∧ a.raw[r.toRaw]? = some v)) ∧
    List.Sorted (· < ·) (a.iterPairs.map (fun p => p.1.raw)) := by
  have hlt_mod : ∀ i, i < a.raw.length → i % U32_MOD = i := by
    intro i hi
    refine Nat.mod_eq_of_lt ?_
    calc i < a.raw.length := hi
      _ ≤ U32_MAX := hcap
      _ < U32_MOD := by norm_num [U32_MAX, U32_MOD]
  constructor
  · intro r v
    constructor
    · intro hm
      obtain ⟨hm1, hm2⟩ := List.mem_filter.mp hm
      obtain ⟨⟨i, w⟩, hpe, hfw⟩ := List.mem_map.mp hm1
      have hge : a.raw[i]? = some w := List.mk_mem_enum_iff_getElem?.mp hpe
      have hib : i < a.raw.length := (List.getElem?_eq_some.mp hge).1
      have hr : r = ⟨i % U32_MOD⟩ := by
        have := congrArg Prod.fst hfw
        simpa [Ref.fromRaw] using this.symm
      have hv : v = w := by
        have := congrArg Prod.snd hfw
        simpa using this.symm
      subst hv
      have hri : r.raw = i := by rw [hr]; exact hlt_mod i hib
      have hnf : r ∉ a.free := by
        simpa using hm2
      refine ⟨?_, ?_⟩
      · simp [SlotArena.isValid, Ref.toRaw, hnf, hri, hib]
      · rw [Ref.toRaw, hri]; exact hge
    · rintro ⟨hval, hget⟩
      have hv' := hval
      simp [SlotArena.isValid, Ref.toRaw] at hv'
      obtain ⟨hnf, hib⟩ := hv'
      refine List.mem_filter.mpr ⟨?_, ?_⟩
      · refine List.mem_map.mpr ⟨(r.raw, v), ?_, ?_⟩
        · exact List.mk_mem_enum_iff_getElem?.mpr hget
        · have : r.raw % U32_MOD = r.raw := hlt_mod r.raw hib
          simp [Ref.fromRaw, this]
      · simpa using hnf
  · have h0 : List.Pairwise (fun p q : Nat × T => p.1 < q.1) a.raw.enum := by
      have h1 : List.Pairwise (· < ·) (a.raw.enum.map Prod.fst) := by
        rw [List.enum_map_fst]
        exact List.pairwise_lt_range _
      exact List.pairwise_map.mp h1
    have h2 : List.Pairwise (fun p q : Ref × T => p.1.raw < q.1.raw)
        (a.raw.enum.map (fun p => (Ref.fromRaw p.1, p.2))) := by
      refine List.pairwise_map.mpr ?_
      refine h0.imp_of_mem ?_
      intro p q hp hq hlt
      have hpb : p.1 < a.raw.length := by
        have : a.raw[p.1]? = some p.2 := List.mk_mem_enum_iff_getElem?.mp (by
          obtain ⟨x, y⟩ := p; exact hp)
        exact (List.getElem?_eq_some.mp this).1
      have hqb : q.1 < a.raw.length := by
        have : a.raw[q.1]? = some q.2 := List.mk_mem_enum_iff_getElem?.mp (by
          obtain ⟨x, y⟩ := q; exact hq)
        exact (List.getElem?_eq_some.mp this).1
      simpa [Ref.fromRaw, hlt_mod p.1 hpb, hlt_mod q.1 hqb] using hlt
    have h3 : List.Pairwise (fun p q : Ref × T => p.1.raw < q.1.raw)
        a.iterPairs := h2.filter _
    exact List.pairwise_map.mpr h3

/-- Closed instance of `iter_exactly_valid_ascending` on the arena
`[10, 20, 30]` with slot 1 freed (the spec's §8 scenario after
`free("B")`). -/
theorem iter_exactly_valid_ascending_w :
    ((⟨2⟩, 30) ∈ (⟨[10, 20, 30], [⟨1⟩]⟩ : SlotArena Nat).iterPairs ↔
      ((⟨[10, 20, 30], [⟨1⟩]⟩ : SlotArena Nat).isValid ⟨2⟩ = true ∧
        ([10, 20, 30] : List Nat)[(⟨2⟩ : Ref).toRaw]? = some 30)) ∧
    List.Sorted (· < ·)
      ((⟨[10, 20, 30], [⟨1⟩]⟩ : SlotArena Nat).iterPairs.map
        (fun p => p.1.raw)) :=
  ⟨(iter_exactly_valid_ascending ⟨[10, 20, 30], [⟨1⟩]⟩ (by decide)).1 ⟨2⟩ 30,
    (iter_exactly_valid_ascending ⟨[10, 20, 30], [⟨1⟩]⟩ (by decide)).2⟩

/-- C9 counterexample: the derived structural equality compares the raw
storage and the free list field-wise, NOT the occupied-slot sequences:
the arenas `⟨[0], []⟩` and `⟨[0, 1], [1]⟩` have identical `iter()` output
`[(0, 0)]` yet are unequal, so equality is not equivalent to equality of
iteration sequences. -/
theorem arena_eq_not_determined_by_iter :
    ¬ (((⟨[0], []⟩ : SlotArena Nat) = ⟨[0, 1], [⟨1⟩]⟩) ↔
      (⟨[0], []⟩ : SlotArena Nat).iterPairs =
        (⟨[0, 1], [⟨1⟩]⟩ : SlotArena Nat).iterPairs) := by
  decide

/-- C9 amended: the derived equality compares the two arenas field-wise
(raw storage AND free list); equal arenas have equal `iter()` sequences
(so debug printing, which is built from `iter()`, agrees on equal arenas),
but the converse fails. -/
theorem arena_eq_fieldwise [DecidableEq T] :
    ∀ a b : SlotArena T,
      (SlotArena.beq a b = true ↔ a.raw = b.raw ∧ a.free = b.free) ∧
      (SlotArena.beq a b = true → a = b) ∧
      (a = b → a.iterPairs = b.iterPairs) := by
  intro a b
  refine ⟨?_, ?_, ?_⟩
  · simp [SlotArena.beq]
  · intro h
    simp [SlotArena.beq] at h
    cases a; cases b
    simp only [SlotArena.mk.injEq]
    exact h
  · intro h
    rw [h]

/-- Closed instance of `arena_eq_fieldwise`. -/
theorem arena_eq_fieldwise_w :
    SlotArena.beq (⟨[3], [⟨0⟩]⟩ : SlotArena Nat) ⟨[3], [⟨0⟩]⟩ = true :=
  (arena_eq_fieldwise ⟨[3], [⟨0⟩]⟩ ⟨[3], [⟨0⟩]⟩).1.mpr ⟨rfl, rfl⟩

end SlotArenaSpec
